import Mathlib

/-!
Shallow embedding of the `grouper` Go package (github.com/danlock/grouper).

The package has three group implementations:

* `src/grouper.go` — fixed `Group[V]`: `New(ctx, funcs...)` panics on an empty
  list, stores the derived cancellable context in the struct; `Wait()` spawns
  one goroutine per func, on error fires `errOnce` (records the error and
  cancels), on success writes `values[i] = v`; finally `wg.Wait()`,
  `g.cancel()`, `return values, g.err`.
* `src/unnamed/part_000` — a second fixed `Group[V]`: `New(funcs...)` panics on
  an empty list; `Wait(ctx)` derives a per-call context with `defer cancel()`,
  spawns goroutines that fire `errOnce` on error and then write
  `values[i] = v` unconditionally, then returns `values, g.err`.
* `src/dynamic.go` — `DynamicGroup[V]`: `Go(f)` increments `count` and spawns a
  goroutine that fires `errOnce` on error and then always sends `v` (the
  value the func returned) on `valueChan`; `Wait()` receives `count` values,
  resets `count`, cancels, and returns `values, g.err`.

Task functions are embedded by their outcomes: a pair `(v, e) : V × Option E`
(the value and the optional error the function returns).  Goroutine
interleaving is embedded by an explicit completion order: a list of task
indices, constrained to be a permutation of `List.range n` where a claim
needs every goroutine to have completed.  Each goroutine's body (the
`errOnce` attempt followed by its value write or channel send) is one atomic
step; `errOnce` picks the first erroring task in completion order, exactly as
the single-fire guard does.  The derived cancellable context is embedded as a
`Bool` flag (`cancelled`), set by the winning `errOnce` body and by the final
`cancel()` in `Wait`.  A Go `panic` is `Option.none`; blocking forever on the
channel is `Option.none` for the dynamic `Wait`.
-/

namespace Grouper

variable {V E : Type}

/-- Shared per-run execution state of a fixed group's `Wait`: the `values`
slice, the `errOnce`/`err` pair, and the derived context's cancellation flag. -/
structure GState (V E : Type) where
  values : List V
  errSet : Bool
  err : Option E
  cancelled : Bool
  deriving Repr, DecidableEq

/-! ## src/grouper.go — fixed Group -/

/-- Embeds `src/grouper.go` `New`: panics (`none`) iff `funcs` is
empty, otherwise returns the group (its funcs; the derived context starts
uncancelled and the error slot empty). -/
def New (funcs : List (V × Option E)) : Option (List (V × Option E)) :=
  if funcs.isEmpty then none else some funcs

/-- Body of one goroutine of `src/grouper.go` `Wait` for task index `i`:
`if v, err := f(g.ctx); err != nil` fire `errOnce` (record the error, cancel)
`else values[i] = v`. -/
def runTask [Inhabited V] (funcs : List (V × Option E)) (s : GState V E) (i : Nat) :
    GState V E :=
  match funcs[i]? with
  | none => s
  | some (v, e) =>
    match e with
    | some ex =>
        if s.errSet then s
        else { s with errSet := true, err := some ex, cancelled := true }
    | none => { s with values := s.values.set i v }

/-- Embeds `src/grouper.go` `Wait`: allocate `values` (zero values),
run every goroutine (in completion order `order`), then `g.cancel()` and
return; the result carries the returned slice, the returned error and the
final state of the derived context. -/
def Wait [Inhabited V] (funcs : List (V × Option E)) (order : List Nat) : GState V E :=
  let init : GState V E :=
    ⟨List.replicate funcs.length default, false, none, false⟩
  let s := order.foldl (runTask funcs) init
  { s with cancelled := true }

/-! ## src/unnamed/part_000 — second fixed Group -/

/-- Persistent state of the `part_000` group between `Wait` calls: the
`errOnce` guard, the error slot and the funcs fixed at construction. -/
structure PGroup (V E : Type) where
  errSet : Bool
  err : Option E
  funcs : List (V × Option E)
  deriving Repr, DecidableEq

/-- Embeds `src/unnamed/part_000` `New`: panics (`none`) iff `funcs`
is empty. -/
def PGroup.New (funcs : List (V × Option E)) : Option (PGroup V E) :=
  if funcs.isEmpty then none else some ⟨false, none, funcs⟩

/-- Body of one goroutine of `part_000` `Wait` for task index `i`: fire
`errOnce` on a non-nil error, then write `values[i] = v` unconditionally. -/
def runTaskP [Inhabited V] (funcs : List (V × Option E)) (s : GState V E) (i : Nat) :
    GState V E :=
  match funcs[i]? with
  | none => s
  | some (v, e) =>
    let s1 :=
      match e with
      | some ex =>
          if s.errSet then s
          else { s with errSet := true, err := some ex, cancelled := true }
      | none => s
    { s1 with values := s1.values.set i v }

/-- Embeds `src/unnamed/part_000` `Wait`: derive a fresh per-call
context, run every goroutine in completion order `order` starting from the
group's persistent `errOnce` state, `defer cancel()`, and return the values,
the error, the updated group and the per-call context's final flag. -/
def PGroup.Wait [Inhabited V] (g : PGroup V E) (order : List Nat) :
    (List V × Option E) × PGroup V E × Bool :=
  let init : GState V E :=
    ⟨List.replicate g.funcs.length default, g.errSet, g.err, false⟩
  let s := order.foldl (runTaskP g.funcs) init
  ((s.values, s.err), ⟨s.errSet, s.err, g.funcs⟩, true)

/-- Repeated calls of `part_000` `Wait` on the same group, threading the
group's persistent state; each call has its own completion order. -/
def PGroup.waitChain [Inhabited V] (g : PGroup V E) (orders : List (List Nat)) :
    PGroup V E :=
  orders.foldl (fun g o => (g.Wait o).2.1) g

/-! ## src/dynamic.go — DynamicGroup -/

/-- State of a `DynamicGroup`: the derived context's flag, the `errOnce`/`err`
pair, the submission `count`, the submitted tasks (goroutines spawned by `Go`)
and the values that have arrived on `valueChan`, in arrival order. -/
structure DynamicGroup (V E : Type) where
  cancelled : Bool
  errSet : Bool
  err : Option E
  count : Nat
  tasks : List (V × Option E)
  valueChan : List V
  deriving Repr, DecidableEq

/-- Embeds `src/dynamic.go` `NewDynamic`: fresh group, no submissions,
empty channel, uncancelled derived context. -/
def NewDynamic : DynamicGroup V E :=
  ⟨false, false, none, 0, [], []⟩

/-- Embeds `src/dynamic.go` `Go`: increment `count` and spawn the
goroutine for `f` (recorded in `tasks`; its body runs later, at its place in
the completion order). -/
def DynamicGroup.Go (g : DynamicGroup V E) (f : V × Option E) : DynamicGroup V E :=
  { g with count := g.count + 1, tasks := g.tasks ++ [f] }

/-- Submit a whole list of tasks by repeated `Go`. -/
def DynamicGroup.goAll (g : DynamicGroup V E) (fs : List (V × Option E)) :
    DynamicGroup V E :=
  fs.foldl DynamicGroup.Go g

/-- Body of one goroutine spawned by `Go`, for task index `i`: `v, err :=
f(g.ctx)`; on a non-nil error fire `errOnce` (record the error, cancel); then
`g.valueChan <- v` — the value the function returned is sent in every case. -/
def depositTask (tasks : List (V × Option E)) (g : DynamicGroup V E) (i : Nat) :
    DynamicGroup V E :=
  match tasks[i]? with
  | none => g
  | some (v, e) =>
    let g1 :=
      match e with
      | some ex =>
          if g.errSet then g
          else { g with errSet := true, err := some ex, cancelled := true }
      | none => g
    { g1 with valueChan := g1.valueChan ++ [v] }

/-- Run the goroutines of every submitted task, in completion order `order`. -/
def DynamicGroup.runAll (g : DynamicGroup V E) (order : List Nat) : DynamicGroup V E :=
  order.foldl (depositTask g.tasks) g

/-- Embeds `src/dynamic.go` `Wait`: receive `count` values from
`valueChan` (blocking forever — `none` — if fewer ever arrive), reset
`count`, cancel the derived context and return the values and the error. -/
def DynamicGroup.Wait (g : DynamicGroup V E) :
    Option ((List V × Option E) × DynamicGroup V E) :=
  if g.count ≤ g.valueChan.length then
    some ((g.valueChan.take g.count, g.err),
      { g with count := 0, cancelled := true, valueChan := g.valueChan.drop g.count })
  else none

/-! ## The errOnce fold

All three goroutine bodies update the `(errSet, err)` pair the same way: a
single-fire compare-and-set on the first non-nil error.  `onceStep` is that
common projection; `firstErrIn` is its closed form — the error of the first
failing task in completion order. -/

/-- Effect of goroutine `i`'s `errOnce.Do` attempt on the `(errSet, err)`
pair. -/
def onceStep (tasks : List (V × Option E)) (p : Bool × Option E) (i : Nat) :
    Bool × Option E :=
  match tasks[i]?.bind (fun t => t.2) with
  | some ex => if p.1 then p else (true, some ex)
  | none => p

/-- Error of the first failing task in completion order `order`. -/
def firstErrIn (tasks : List (V × Option E)) (order : List Nat) : Option E :=
  (order.filterMap (fun i => tasks[i]?.bind (fun t => t.2))).head?

theorem runTask_errPair [Inhabited V] (funcs : List (V × Option E)) (s : GState V E)
    (i : Nat) :
    ((runTask funcs s i).errSet, (runTask funcs s i).err) =
      onceStep funcs (s.errSet, s.err) i := by
  unfold runTask onceStep
  cases h : funcs[i]? with
  | none => simp
  | some t =>
    obtain ⟨v, e⟩ := t
    cases e with
    | none => simp
    | some ex =>
      by_cases hs : s.errSet <;> simp [hs]

theorem runTaskP_errPair [Inhabited V] (funcs : List (V × Option E)) (s : GState V E)
    (i : Nat) :
    ((runTaskP funcs s i).errSet, (runTaskP funcs s i).err) =
      onceStep funcs (s.errSet, s.err) i := by
  unfold runTaskP onceStep
  cases h : funcs[i]? with
  | none => simp
  | some t =>
    obtain ⟨v, e⟩ := t
    cases e with
    | none => simp
    | some ex =>
      by_cases hs : s.errSet <;> simp [hs]

theorem depositTask_errPair (tasks : List (V × Option E)) (g : DynamicGroup V E)
    (i : Nat) :
    ((depositTask tasks g i).errSet, (depositTask tasks g i).err) =
      onceStep tasks (g.errSet, g.err) i := by
  unfold depositTask onceStep
  cases h : tasks[i]? with
  | none => simp
  | some t =>
    obtain ⟨v, e⟩ := t
    cases e with
    | none => simp
    | some ex =>
      by_cases hs : g.errSet <;> simp [hs]

theorem foldl_runTask_errPair [Inhabited V] (funcs : List (V × Option E)) :
    ∀ (order : List Nat) (s : GState V E),
      ((order.foldl (runTask funcs) s).errSet, (order.foldl (runTask funcs) s).err) =
        order.foldl (onceStep funcs) (s.errSet, s.err) := by
  intro order
  induction order with
  | nil => intro s; rfl
  | cons j rest ih =>
    intro s
    simp only [List.foldl_cons]
    rw [ih (runTask funcs s j), runTask_errPair]

theorem foldl_runTaskP_errPair [Inhabited V] (funcs : List (V × Option E)) :
    ∀ (order : List Nat) (s : GState V E),
      ((order.foldl (runTaskP funcs) s).errSet, (order.foldl (runTaskP funcs) s).err) =
        order.foldl (onceStep funcs) (s.errSet, s.err) := by
  intro order
  induction order with
  | nil => intro s; rfl
  | cons j rest ih =>
    intro s
    simp only [List.foldl_cons]
    rw [ih (runTaskP funcs s j), runTaskP_errPair]

theorem foldl_depositTask_errPair (tasks : List (V × Option E)) :
    ∀ (order : List Nat) (g : DynamicGroup V E),
      ((order.foldl (depositTask tasks) g).errSet,
        (order.foldl (depositTask tasks) g).err) =
        order.foldl (onceStep tasks) (g.errSet, g.err) := by
  intro order
  induction order with
  | nil => intro g; rfl
  | cons j rest ih =>
    intro g
    simp only [List.foldl_cons]
    rw [ih (depositTask tasks g j), depositTask_errPair]

/-- Once the single-fire guard has fired, the `(errSet, err)` pair never
changes again. -/
theorem foldl_onceStep_frozen (tasks : List (V × Option E)) :
    ∀ (order : List Nat) (p : Bool × Option E), p.1 = true →
      order.foldl (onceStep tasks) p = p := by
  intro order
  induction order with
  | nil => intro p _; rfl
  | cons j rest ih =>
    intro p hp
    simp only [List.foldl_cons]
    have hstep : onceStep tasks p j = p := by
      unfold onceStep
      cases tasks[j]?.bind (fun t => t.2) <;> simp [hp]
    rw [hstep, ih p hp]

/-- From a fresh `(false, none)` pair, the errOnce fold ends at the first
failing task's error (and the guard records whether one fired). -/
theorem foldl_onceStep_clean (tasks : List (V × Option E)) :
    ∀ (order : List Nat),
      order.foldl (onceStep tasks) ((false : Bool), (none : Option E)) =
        match firstErrIn tasks order with
        | none => (false, none)
        | some e => (true, some e) := by
  intro order
  induction order with
  | nil => rfl
  | cons j rest ih =>
    simp only [List.foldl_cons, firstErrIn, List.filterMap_cons]
    cases h : tasks[j]?.bind (fun t => t.2) with
    | none =>
      have hstep : onceStep tasks (false, none) j = (false, none) := by
        unfold onceStep; rw [h]
      rw [hstep, ih]
      simp [firstErrIn]
    | some e =>
      have hstep : onceStep tasks (false, none) j = (true, some e) := by
        unfold onceStep; rw [h]; simp
      rw [hstep, foldl_onceStep_frozen tasks rest _ rfl]
      simp

/-- Closed form of the errOnce fold's error component. -/
theorem foldl_onceStep_clean_err (tasks : List (V × Option E)) (order : List Nat) :
    (order.foldl (onceStep tasks) ((false : Bool), (none : Option E))).2 =
      firstErrIn tasks order := by
  rw [foldl_onceStep_clean]
  cases firstErrIn tasks order
  · rfl
  · rfl

/-- When the errOnce fold produced an error, the guard fired. -/
theorem foldl_onceStep_clean_errSet (tasks : List (V × Option E)) (order : List Nat)
    (e : E)
    (h : (order.foldl (onceStep tasks) ((false : Bool), (none : Option E))).2 = some e) :
    (order.foldl (onceStep tasks) ((false : Bool), (none : Option E))).1 = true := by
  rw [foldl_onceStep_clean] at h ⊢
  cases hf : firstErrIn tasks order
  · rw [hf] at h; exact Option.noConfusion h
  · rfl

/-- When no task errors, no single-fire guard ever fires. -/
theorem firstErrIn_eq_none (tasks : List (V × Option E)) (order : List Nat)
    (hok : ∀ t ∈ tasks, t.2 = none) : firstErrIn tasks order = none := by
  unfold firstErrIn
  rw [List.head?_eq_none_iff, List.filterMap_eq_nil_iff]
  intro i _
  cases h : tasks[i]? with
  | none => rfl
  | some t =>
    have ht : t ∈ tasks := List.mem_iff_getElem?.mpr ⟨i, h⟩
    simp [hok t ht]

/-- When some task errors and every goroutine completed, a guard fired. -/
theorem firstErrIn_isSome_of_fail (tasks : List (V × Option E)) (order : List Nat)
    (hperm : order.Perm (List.range tasks.length))
    (t : V × Option E) (ht : t ∈ tasks) (e : E) (he : t.2 = some e) :
    ∃ ex, firstErrIn tasks order = some ex := by
  obtain ⟨i, hi⟩ := List.mem_iff_getElem?.mp ht
  have hilt : i < tasks.length := (List.getElem?_eq_some.mp hi).1
  have hio : i ∈ order := hperm.mem_iff.mpr (List.mem_range.mpr hilt)
  have hmem : e ∈ order.filterMap (fun i => tasks[i]?.bind (fun t => t.2)) :=
    List.mem_filterMap.mpr ⟨i, hio, by rw [hi]; simpa using he⟩
  unfold firstErrIn
  cases hh : (order.filterMap (fun i => tasks[i]?.bind (fun t => t.2))).head? with
  | none =>
    rw [List.head?_eq_none_iff.mp hh] at hmem
    exact absurd hmem (List.not_mem_nil e)
  | some ex => exact ⟨ex, rfl⟩

/-- The error the guard captured was returned by one of the tasks. -/
theorem firstErrIn_mem (tasks : List (V × Option E)) (order : List Nat) (e : E)
    (h : firstErrIn tasks order = some e) : ∃ t ∈ tasks, t.2 = some e := by
  unfold firstErrIn at h
  have hmem : e ∈ order.filterMap (fun i => tasks[i]?.bind (fun t => t.2)) :=
    List.mem_of_mem_head? (Option.mem_def.mpr h)
  obtain ⟨i, _, hfi⟩ := List.mem_filterMap.mp hmem
  cases ht : tasks[i]? with
  | none => rw [ht] at hfi; simp at hfi
  | some t =>
    rw [ht] at hfi
    exact ⟨t, List.mem_iff_getElem?.mpr ⟨i, ht⟩, hfi⟩

/-! ## The values slice of the fixed groups -/

theorem runTask_values_length [Inhabited V] (funcs : List (V × Option E))
    (s : GState V E) (i : Nat) :
    (runTask funcs s i).values.length = s.values.length := by
  unfold runTask
  cases h : funcs[i]? with
  | none => rfl
  | some t =>
    obtain ⟨v, e⟩ := t
    cases e with
    | some ex => by_cases hs : s.errSet <;> simp [hs]
    | none => simp [List.length_set]

theorem runTaskP_values_length [Inhabited V] (funcs : List (V × Option E))
    (s : GState V E) (i : Nat) :
    (runTaskP funcs s i).values.length = s.values.length := by
  unfold runTaskP
  cases h : funcs[i]? with
  | none => rfl
  | some t =>
    obtain ⟨v, e⟩ := t
    cases e with
    | some ex => by_cases hs : s.errSet <;> simp [hs, List.length_set]
    | none => simp [List.length_set]

theorem foldl_runTask_values_length [Inhabited V] (funcs : List (V × Option E)) :
    ∀ (order : List Nat) (s : GState V E),
      (order.foldl (runTask funcs) s).values.length = s.values.length := by
  intro order
  induction order with
  | nil => intro s; rfl
  | cons j rest ih =>
    intro s
    simp only [List.foldl_cons]
    rw [ih (runTask funcs s j), runTask_values_length]

theorem foldl_runTaskP_values_length [Inhabited V] (funcs : List (V × Option E)) :
    ∀ (order : List Nat) (s : GState V E),
      (order.foldl (runTaskP funcs) s).values.length = s.values.length := by
  intro order
  induction order with
  | nil => intro s; rfl
  | cons j rest ih =>
    intro s
    simp only [List.foldl_cons]
    rw [ih (runTaskP funcs s j), runTaskP_values_length]

/-- A goroutine for another index never touches slot `i` (each slot has a
single writer). -/
theorem runTask_slot_other [Inhabited V] (funcs : List (V × Option E))
    (s : GState V E) (j i : Nat) (hne : j ≠ i) :
    (runTask funcs s j).values[i]? = s.values[i]? := by
  unfold runTask
  cases h : funcs[j]? with
  | none => rfl
  | some t =>
    obtain ⟨v, e⟩ := t
    cases e with
    | some ex => by_cases hs : s.errSet <;> simp [hs]
    | none => simp [List.getElem?_set_ne hne]

theorem runTaskP_slot_other [Inhabited V] (funcs : List (V × Option E))
    (s : GState V E) (j i : Nat) (hne : j ≠ i) :
    (runTaskP funcs s j).values[i]? = s.values[i]? := by
  unfold runTaskP
  cases h : funcs[j]? with
  | none => rfl
  | some t =>
    obtain ⟨v, e⟩ := t
    cases e with
    | some ex => by_cases hs : s.errSet <;> simp [hs, List.getElem?_set_ne hne]
    | none => simp [List.getElem?_set_ne hne]

/-- In `src/grouper.go`, an erroring goroutine never writes its slot. -/
theorem runTask_slot_err [Inhabited V] (funcs : List (V × Option E))
    (s : GState V E) (i : Nat) (v : V) (ex : E) (h : funcs[i]? = some (v, some ex)) :
    (runTask funcs s i).values = s.values := by
  unfold runTask
  rw [h]
  by_cases hs : s.errSet <;> simp [hs]

theorem foldl_runTask_slot_err [Inhabited V] (funcs : List (V × Option E))
    (i : Nat) (v : V) (ex : E) (h : funcs[i]? = some (v, some ex)) :
    ∀ (order : List Nat) (s : GState V E),
      (order.foldl (runTask funcs) s).values[i]? = s.values[i]? := by
  intro order
  induction order with
  | nil => intro s; rfl
  | cons j rest ih =>
    intro s
    simp only [List.foldl_cons]
    rw [ih (runTask funcs s j)]
    by_cases hj : j = i
    · subst hj; rw [runTask_slot_err funcs s j v ex h]
    · exact runTask_slot_other funcs s j i hj

/-- A slot whose goroutine never completes keeps its current content. -/
theorem foldl_runTask_slot_not_mem [Inhabited V] (funcs : List (V × Option E))
    (i : Nat) :
    ∀ (order : List Nat) (s : GState V E), i ∉ order →
      (order.foldl (runTask funcs) s).values[i]? = s.values[i]? := by
  intro order
  induction order with
  | nil => intro s _; rfl
  | cons j rest ih =>
    intro s hmem
    simp only [List.foldl_cons]
    rw [ih (runTask funcs s j) (fun hr => hmem (List.mem_cons_of_mem j hr))]
    exact runTask_slot_other funcs s j i (fun hj => hmem (hj ▸ List.mem_cons_self j rest))

theorem foldl_runTaskP_slot_not_mem [Inhabited V] (funcs : List (V × Option E))
    (i : Nat) :
    ∀ (order : List Nat) (s : GState V E), i ∉ order →
      (order.foldl (runTaskP funcs) s).values[i]? = s.values[i]? := by
  intro order
  induction order with
  | nil => intro s _; rfl
  | cons j rest ih =>
    intro s hmem
    simp only [List.foldl_cons]
    rw [ih (runTaskP funcs s j) (fun hr => hmem (List.mem_cons_of_mem j hr))]
    exact runTaskP_slot_other funcs s j i (fun hj => hmem (hj ▸ List.mem_cons_self j rest))

/-- In `src/grouper.go`, a succeeding goroutine writes its value to its own
slot. -/
theorem runTask_slot_succ [Inhabited V] (funcs : List (V × Option E))
    (s : GState V E) (i : Nat) (v : V) (h : funcs[i]? = some (v, none))
    (hlen : s.values.length = funcs.length) :
    (runTask funcs s i).values[i]? = some v := by
  have hi : i < s.values.length := by
    rw [hlen]; exact (List.getElem?_eq_some.mp h).1
  unfold runTask
  rw [h]
  exact List.getElem?_set_self hi

theorem foldl_runTask_slot_succ [Inhabited V] (funcs : List (V × Option E))
    (i : Nat) (v : V) (h : funcs[i]? = some (v, none)) :
    ∀ (order : List Nat) (s : GState V E), s.values.length = funcs.length →
      i ∈ order → (order.foldl (runTask funcs) s).values[i]? = some v := by
  intro order
  induction order with
  | nil => intro s _ hmem; exact absurd hmem (List.not_mem_nil i)
  | cons j rest ih =>
    intro s hlen hmem
    simp only [List.foldl_cons]
    by_cases hr : i ∈ rest
    · exact ih (runTask funcs s j) (by rw [runTask_values_length]; exact hlen) hr
    · have hj : i = j := by
        cases List.mem_cons.mp hmem with
        | inl h0 => exact h0
        | inr h0 => exact absurd h0 hr
      subst hj
      rw [foldl_runTask_slot_not_mem funcs i rest _ hr]
      exact runTask_slot_succ funcs s i v h hlen

/-- In `part_000`, every completed goroutine writes its value to its own
slot, error or not. -/
theorem runTaskP_slot_write [Inhabited V] (funcs : List (V × Option E))
    (s : GState V E) (i : Nat) (v : V) (e : Option E) (h : funcs[i]? = some (v, e))
    (hlen : s.values.length = funcs.length) :
    (runTaskP funcs s i).values[i]? = some v := by
  have hi : i < s.values.length := by
    rw [hlen]; exact (List.getElem?_eq_some.mp h).1
  unfold runTaskP
  rw [h]
  cases e with
  | none => exact List.getElem?_set_self hi
  | some ex =>
    by_cases hs : s.errSet
    · simp only [hs, if_true]
      exact List.getElem?_set_self hi
    · simp only [hs, if_false]
      exact List.getElem?_set_self hi

theorem foldl_runTaskP_slot_write [Inhabited V] (funcs : List (V × Option E))
    (i : Nat) (v : V) (e : Option E) (h : funcs[i]? = some (v, e)) :
    ∀ (order : List Nat) (s : GState V E), s.values.length = funcs.length →
      i ∈ order → (order.foldl (runTaskP funcs) s).values[i]? = some v := by
  intro order
  induction order with
  | nil => intro s _ hmem; exact absurd hmem (List.not_mem_nil i)
  | cons j rest ih =>
    intro s hlen hmem
    simp only [List.foldl_cons]
    by_cases hr : i ∈ rest
    · exact ih (runTaskP funcs s j) (by rw [runTaskP_values_length]; exact hlen) hr
    · have hj : i = j := by
        cases List.mem_cons.mp hmem with
        | inl h0 => exact h0
        | inr h0 => exact absurd h0 hr
      subst hj
      rw [foldl_runTaskP_slot_not_mem funcs i rest _ hr]
      exact runTaskP_slot_write funcs s i v e h hlen

/-! ## Projections of the two fixed Waits -/

theorem Wait_err [Inhabited V] (funcs : List (V × Option E)) (order : List Nat) :
    (Wait funcs order).err = firstErrIn funcs order := by
  show (order.foldl (runTask funcs)
      ⟨List.replicate funcs.length default, false, none, false⟩).err = _
  exact (congrArg Prod.snd (foldl_runTask_errPair funcs order
    ⟨List.replicate funcs.length default, false, none, false⟩)).trans
    (foldl_onceStep_clean_err funcs order)

theorem Wait_values_length [Inhabited V] (funcs : List (V × Option E))
    (order : List Nat) :
    (Wait funcs order).values.length = funcs.length := by
  show (order.foldl (runTask funcs)
      ⟨List.replicate funcs.length default, false, none, false⟩).values.length = _
  rw [foldl_runTask_values_length]
  exact List.length_replicate funcs.length default

theorem PWait_err [Inhabited V] (funcs : List (V × Option E)) (order : List Nat) :
    ((⟨false, none, funcs⟩ : PGroup V E).Wait order).1.2 = firstErrIn funcs order := by
  show (order.foldl (runTaskP funcs)
      ⟨List.replicate funcs.length default, false, none, false⟩).err = _
  exact (congrArg Prod.snd (foldl_runTaskP_errPair funcs order
    ⟨List.replicate funcs.length default, false, none, false⟩)).trans
    (foldl_onceStep_clean_err funcs order)

theorem PWait_values_length [Inhabited V] (funcs : List (V × Option E))
    (order : List Nat) :
    ((⟨false, none, funcs⟩ : PGroup V E).Wait order).1.1.length = funcs.length := by
  show (order.foldl (runTaskP funcs)
      ⟨List.replicate funcs.length default, false, none, false⟩).values.length = _
  rw [foldl_runTaskP_values_length]
  exact List.length_replicate funcs.length default

/-- A `part_000` group whose single-fire guard already fired is completely
inert: another `Wait` returns the stored error and leaves the group as it
was. -/
theorem PWait_frozen [Inhabited V] (g : PGroup V E) (order : List Nat)
    (hset : g.errSet = true) :
    (g.Wait order).2.1 = g ∧ (g.Wait order).1.2 = g.err := by
  have hp := foldl_runTaskP_errPair g.funcs order
    ⟨List.replicate g.funcs.length default, g.errSet, g.err, false⟩
  rw [foldl_onceStep_frozen g.funcs order (g.errSet, g.err) hset] at hp
  have hset' := congrArg Prod.fst hp
  have herr' := congrArg Prod.snd hp
  unfold PGroup.Wait
  constructor
  · show (⟨_, _, g.funcs⟩ : PGroup V E) = g
    rw [show ((List.foldl (runTaskP g.funcs)
        ⟨List.replicate g.funcs.length default, g.errSet, g.err, false⟩ order).errSet) =
        g.errSet from hset',
      show ((List.foldl (runTaskP g.funcs)
        ⟨List.replicate g.funcs.length default, g.errSet, g.err, false⟩ order).err) =
        g.err from herr']
  · exact herr'

/-! ## Projections of the dynamic group -/

theorem goAll_spec : ∀ (fs : List (V × Option E)) (g : DynamicGroup V E),
    g.goAll fs =
      ⟨g.cancelled, g.errSet, g.err, g.count + fs.length, g.tasks ++ fs, g.valueChan⟩ := by
  intro fs
  induction fs with
  | nil => intro g; simp [DynamicGroup.goAll]
  | cons f rest ih =>
    intro g
    show rest.foldl DynamicGroup.Go (g.Go f) = _
    have : rest.foldl DynamicGroup.Go (g.Go f) = (g.Go f).goAll rest := rfl
    rw [this, ih (g.Go f)]
    simp [DynamicGroup.Go, Nat.add_assoc, Nat.add_comm 1 rest.length]

/-- Submitting `fs` to a fresh dynamic group records exactly those tasks and
their count. -/
theorem goAll_new (fs : List (V × Option E)) :
    (NewDynamic.goAll fs : DynamicGroup V E) =
      ⟨false, false, none, fs.length, fs, []⟩ := by
  rw [goAll_spec]
  simp [NewDynamic]

theorem depositTask_chan (tasks : List (V × Option E)) (g : DynamicGroup V E)
    (i : Nat) :
    (depositTask tasks g i).valueChan =
      g.valueChan ++ (tasks[i]?.map (fun t => t.1)).toList := by
  unfold depositTask
  cases h : tasks[i]? with
  | none => simp
  | some t =>
    obtain ⟨v, e⟩ := t
    cases e with
    | none => simp
    | some ex => by_cases hs : g.errSet <;> simp [hs]

theorem depositTask_count (tasks : List (V × Option E)) (g : DynamicGroup V E)
    (i : Nat) : (depositTask tasks g i).count = g.count := by
  unfold depositTask
  cases h : tasks[i]? with
  | none => rfl
  | some t =>
    obtain ⟨v, e⟩ := t
    cases e with
    | none => rfl
    | some ex => by_cases hs : g.errSet <;> simp [hs]

theorem foldl_depositTask_chan (tasks : List (V × Option E)) :
    ∀ (order : List Nat) (g : DynamicGroup V E),
      (order.foldl (depositTask tasks) g).valueChan =
        g.valueChan ++ order.filterMap (fun i => tasks[i]?.map (fun t => t.1)) := by
  intro order
  induction order with
  | nil => intro g; simp
  | cons j rest ih =>
    intro g
    simp only [List.foldl_cons, List.filterMap_cons]
    rw [ih (depositTask tasks g j), depositTask_chan]
    cases h : tasks[j]? with
    | none => simp [h]
    | some t => simp [h]

theorem foldl_depositTask_count (tasks : List (V × Option E)) :
    ∀ (order : List Nat) (g : DynamicGroup V E),
      (order.foldl (depositTask tasks) g).count = g.count := by
  intro order
  induction order with
  | nil => intro g; rfl
  | cons j rest ih =>
    intro g
    simp only [List.foldl_cons]
    rw [ih (depositTask tasks g j), depositTask_count]

/-- Indexing the whole of a list through `range` recovers the list. -/
theorem filterMap_range_bind {α β : Type} (h : α → Option β) :
    ∀ (l : List α),
      (List.range l.length).filterMap (fun i => l[i]?.bind h) = l.filterMap h := by
  intro l
  induction l with
  | nil => rfl
  | cons a t ih =>
    rw [List.length_cons, List.range_succ_eq_map, List.filterMap_cons,
      List.filterMap_map]
    have hcomp : ((fun (i : Nat) => (a :: t)[i]?.bind h) ∘ Nat.succ) =
        fun (i : Nat) => t[i]?.bind h := by
      funext i
      simp only [Function.comp_apply, List.getElem?_cons_succ]
    rw [hcomp, ih, List.filterMap_cons]
    cases hha : h a <;> simp [hha]

theorem filterMap_range_map {α β : Type} (g : α → β) (l : List α) :
    (List.range l.length).filterMap (fun i => l[i]?.map g) = l.map g := by
  have hb : (fun (i : Nat) => l[i]?.map g) = fun (i : Nat) => l[i]?.bind (some ∘ g) := by
    funext i
    exact Option.map_eq_bind
  rw [hb, filterMap_range_bind (some ∘ g) l, List.filterMap_eq_map]

/-- When every submitted goroutine has completed, the channel has yielded
exactly the submitted tasks' returned values, one each — permuted into
completion order. -/
theorem runAll_chan_perm (tasks : List (V × Option E)) (order : List Nat)
    (hperm : order.Perm (List.range tasks.length)) :
    ((NewDynamic.goAll tasks).runAll order : DynamicGroup V E).valueChan.Perm
      (tasks.map (fun t => t.1)) := by
  unfold DynamicGroup.runAll
  rw [goAll_new, foldl_depositTask_chan]
  simp only [List.nil_append]
  have h1 := hperm.filterMap (fun i => tasks[i]?.map (fun t => t.1))
  rw [filterMap_range_map (fun t => t.1) tasks] at h1
  exact h1

theorem runAll_err (tasks : List (V × Option E)) (order : List Nat) :
    ((NewDynamic.goAll tasks).runAll order : DynamicGroup V E).err =
      firstErrIn tasks order := by
  unfold DynamicGroup.runAll
  rw [goAll_new]
  exact (congrArg Prod.snd (foldl_depositTask_errPair tasks order
    ⟨false, false, none, tasks.length, tasks, []⟩)).trans
    (foldl_onceStep_clean_err tasks order)

theorem runAll_count (tasks : List (V × Option E)) (order : List Nat) :
    ((NewDynamic.goAll tasks).runAll order : DynamicGroup V E).count =
      tasks.length := by
  unfold DynamicGroup.runAll
  rw [goAll_new, foldl_depositTask_count]

theorem runAll_chan_length (tasks : List (V × Option E)) (order : List Nat)
    (hperm : order.Perm (List.range tasks.length)) :
    ((NewDynamic.goAll tasks).runAll order : DynamicGroup V E).valueChan.length =
      tasks.length := by
  rw [(runAll_chan_perm tasks order hperm).length_eq, List.length_map]

/-- Whenever the dynamic `Wait` returns at all, it has called `cancel`. -/
theorem DWait_cancelled (g : DynamicGroup V E)
    (r : (List V × Option E) × DynamicGroup V E) (h : g.Wait = some r) :
    r.2.cancelled = true := by
  unfold DynamicGroup.Wait at h
  by_cases hc : g.count ≤ g.valueChan.length
  · rw [if_pos hc, Option.some.injEq] at h
    rw [← h]
  · rw [if_neg hc] at h
    exact Option.noConfusion h

/-- After a full run of `K` submitted goroutines, the dynamic `Wait` returns
(does not block), yielding the channel contents and the first error. -/
theorem runAll_Wait_some (tasks : List (V × Option E)) (order : List Nat)
    (hperm : order.Perm (List.range tasks.length)) :
    ∃ g2, ((NewDynamic.goAll tasks).runAll order : DynamicGroup V E).Wait =
      some ((((NewDynamic.goAll tasks).runAll order : DynamicGroup V E).valueChan,
        firstErrIn tasks order), g2) ∧ g2.cancelled = true := by
  have hcount := runAll_count tasks order
  have hlen := runAll_chan_length tasks order hperm
  refine ⟨{ (NewDynamic.goAll tasks).runAll order with
      count := 0, cancelled := true,
      valueChan := ((NewDynamic.goAll tasks).runAll order :
        DynamicGroup V E).valueChan.drop
          (((NewDynamic.goAll tasks).runAll order : DynamicGroup V E).count) },
    ?_, rfl⟩
  unfold DynamicGroup.Wait
  rw [if_pos (by rw [hcount, hlen]), hcount, ← hlen, List.take_length,
    ← runAll_err tasks order]

/-- A `part_000` group whose guard already fired is unchanged by any chain of
further `Wait` calls. -/
theorem waitChain_frozen [Inhabited V] :
    ∀ (orders : List (List Nat)) (g : PGroup V E), g.errSet = true →
      g.waitChain orders = g := by
  intro orders
  induction orders with
  | nil => intro g _; rfl
  | cons o rest ih =>
    intro g hg
    show (((g.Wait o).2.1).waitChain rest) = g
    rw [(PWait_frozen g o hg).1]
    exact ih g hg

/-! ## The claims -/

/-- C1: in every fixed-group or dynamic-group run in which at least one task
returns a non-nil error, `Wait` returns a non-nil error identical to the
error returned by exactly one of the failing tasks — never nil, never a
combination, never an error no task returned.  The same single winner (the
first failing task in completion order) is returned by the `src/grouper.go`
fixed `Wait`, the `part_000` fixed `Wait` and the dynamic `Wait`. -/
theorem wait_err_is_failing_task_err [Inhabited V] (tasks : List (V × Option E))
    (order : List Nat) (hperm : order.Perm (List.range tasks.length))
    (hfail : ∃ t ∈ tasks, t.2 ≠ none) :
    ∃ e, (∃ t ∈ tasks, t.2 = some e) ∧
      (Wait tasks order).err = some e ∧
      ((⟨false, none, tasks⟩ : PGroup V E).Wait order).1.2 = some e ∧
      ∃ g2, ((NewDynamic.goAll tasks).runAll order : DynamicGroup V E).Wait =
        some ((((NewDynamic.goAll tasks).runAll order :
          DynamicGroup V E).valueChan, some e), g2) := by
  obtain ⟨t, ht, hne⟩ := hfail
  obtain ⟨e0, he0⟩ := Option.ne_none_iff_exists'.mp hne
  obtain ⟨ex, hex⟩ := firstErrIn_isSome_of_fail tasks order hperm t ht e0 he0
  refine ⟨ex, firstErrIn_mem tasks order ex hex, ?_, ?_, ?_⟩
  · rw [Wait_err]; exact hex
  · rw [PWait_err]; exact hex
  · obtain ⟨g2, hW, _⟩ := runAll_Wait_some tasks order hperm
    exact ⟨g2, by rw [hW, hex]⟩

/-- C2: for every non-empty task list in which every task succeeds, the fixed
group's `Wait` (in both implementations) returns a nil error and a values
slice of the tasks' length whose element at index `i` is the value task `i`
produced. -/
theorem wait_all_ok_values [Inhabited V] (funcs : List (V × Option E))
    (order : List Nat) (_hne : funcs ≠ [])
    (hperm : order.Perm (List.range funcs.length))
    (hok : ∀ t ∈ funcs, t.2 = none) :
    (Wait funcs order).err = none ∧
    (Wait funcs order).values.length = funcs.length ∧
    ((⟨false, none, funcs⟩ : PGroup V E).Wait order).1.2 = none ∧
    ((⟨false, none, funcs⟩ : PGroup V E).Wait order).1.1.length = funcs.length ∧
    ∀ (i : Nat) (v : V) (e : Option E), funcs[i]? = some (v, e) →
      ((Wait funcs order).values[i]? = some v ∧
        ((⟨false, none, funcs⟩ : PGroup V E).Wait order).1.1[i]? = some v) := by
  refine ⟨?_, Wait_values_length funcs order, ?_, PWait_values_length funcs order, ?_⟩
  · rw [Wait_err]; exact firstErrIn_eq_none funcs order hok
  · rw [PWait_err]; exact firstErrIn_eq_none funcs order hok
  · intro i v e hi
    have hiv : i < funcs.length := (List.getElem?_eq_some.mp hi).1
    have hmem : i ∈ order := hperm.mem_iff.mpr (List.mem_range.mpr hiv)
    have hvmem : (v, e) ∈ funcs := List.mem_iff_getElem?.mpr ⟨i, hi⟩
    have he : e = none := hok (v, e) hvmem
    subst he
    constructor
    · show (order.foldl (runTask funcs)
        ⟨List.replicate funcs.length default, false, none, false⟩).values[i]? = some v
      exact foldl_runTask_slot_succ funcs i v hi order _
        (by rw [List.length_replicate]) hmem
    · show (order.foldl (runTaskP funcs)
        ⟨List.replicate funcs.length default, false, none, false⟩).values[i]? = some v
      exact foldl_runTaskP_slot_write funcs i v none hi order _
        (by rw [List.length_replicate]) hmem

/-- C3: a dynamic group on which `Go` was called exactly `K` times before
`Wait` yields a values slice of exactly `K` elements, one element contributed
per submitted task, erroring tasks included. -/
theorem dynamic_wait_k_elements (tasks : List (V × Option E)) (order : List Nat)
    (hperm : order.Perm (List.range tasks.length)) :
    ∃ r, ((NewDynamic.goAll tasks).runAll order : DynamicGroup V E).Wait = some r ∧
      r.1.1.length = tasks.length ∧
      r.1.1.Perm (tasks.map (fun t => t.1)) := by
  obtain ⟨g2, hW, _⟩ := runAll_Wait_some tasks order hperm
  exact ⟨_, hW, runAll_chan_length tasks order hperm,
    runAll_chan_perm tasks order hperm⟩

/-- C4 counterexample: in the `part_000` fixed group, the task returning the
value 5 alongside an error still gets 5 — not the zero value — stored at its
index, so the claim fails as stated over every fixed-group implementation. -/
theorem p000_error_slot_keeps_value_cex :
    (((⟨false, none, [((5 : Nat), some "boom")]⟩ : PGroup Nat String).Wait
      [0]).1.1 = [5]) ∧ (5 : Nat) ≠ (default : Nat) := by
  constructor
  · rfl
  · decide

/-- C4 amended: in the `src/grouper.go` fixed group, every index whose task
returned a non-nil error holds the zero value, whatever value the task
returned alongside its error; in the `part_000` fixed group such an index
instead holds the value the task returned. -/
theorem error_slot_amended [Inhabited V] (funcs : List (V × Option E))
    (order : List Nat) (i : Nat) (v : V) (ex : E)
    (hperm : order.Perm (List.range funcs.length))
    (hi : funcs[i]? = some (v, some ex)) :
    (Wait funcs order).values[i]? = some default ∧
    ((⟨false, none, funcs⟩ : PGroup V E).Wait order).1.1[i]? = some v := by
  have hiv : i < funcs.length := (List.getElem?_eq_some.mp hi).1
  constructor
  · show (order.foldl (runTask funcs)
      ⟨List.replicate funcs.length default, false, none, false⟩).values[i]? = _
    rw [foldl_runTask_slot_err funcs i v ex hi order _]
    show (List.replicate funcs.length (default : V))[i]? = some default
    rw [List.getElem?_replicate, if_pos hiv]
  · have hmem : i ∈ order := hperm.mem_iff.mpr (List.mem_range.mpr hiv)
    show (order.foldl (runTaskP funcs)
      ⟨List.replicate funcs.length default, false, none, false⟩).values[i]? = some v
    exact foldl_runTaskP_slot_write funcs i v (some ex) hi order _
      (by rw [List.length_replicate]) hmem

/-- C5 counterexample: the dynamic goroutine for a task returning the value 7
alongside an error deposits 7 into the hand-off channel — the value the task
returned, not the zero value — and `Wait` hands that 7 back. -/
theorem dynamic_deposit_keeps_value_cex :
    ((NewDynamic.Go ((7 : Nat), some "boom")).runAll [0] :
      DynamicGroup Nat String).Wait =
      some (([7], some "boom"),
        ⟨true, true, some "boom", 0, [(7, some "boom")], []⟩) ∧
    (7 : Nat) ≠ (default : Nat) := by
  constructor
  · rfl
  · decide

/-- C5 amended: the value each dynamic-group goroutine deposits into the
hand-off channel is the value the task returned (even alongside a non-nil
error), so the slice `Wait` returns carries, for every submitted task, that
task's returned value. -/
theorem dynamic_deposit_is_task_value_amended (tasks : List (V × Option E))
    (order : List Nat) (hperm : order.Perm (List.range tasks.length)) :
    ((NewDynamic.goAll tasks).runAll order : DynamicGroup V E).valueChan =
      order.filterMap (fun i => tasks[i]?.map (fun t => t.1)) ∧
    ((NewDynamic.goAll tasks).runAll order :
      DynamicGroup V E).valueChan.Perm (tasks.map (fun t => t.1)) ∧
    ∃ g2, ((NewDynamic.goAll tasks).runAll order : DynamicGroup V E).Wait =
      some ((((NewDynamic.goAll tasks).runAll order :
        DynamicGroup V E).valueChan, firstErrIn tasks order), g2) := by
  refine ⟨?_, runAll_chan_perm tasks order hperm, ?_⟩
  · show (order.foldl (depositTask ((NewDynamic.goAll tasks :
        DynamicGroup V E)).tasks) (NewDynamic.goAll tasks)).valueChan = _
    rw [goAll_new, foldl_depositTask_chan]
    rfl
  · obtain ⟨g2, hW, _⟩ := runAll_Wait_some tasks order hperm
    exact ⟨g2, hW⟩

/-- C6: after any `Wait` returns — `src/grouper.go` fixed, `part_000` fixed
or dynamic, error or no error — the derived cancellable context handed to
the tasks reports itself cancelled. -/
theorem ctx_cancelled_after_wait [Inhabited V] (funcs : List (V × Option E))
    (order : List Nat) (g : PGroup V E) (d : DynamicGroup V E)
    (r : (List V × Option E) × DynamicGroup V E) (hd : d.Wait = some r) :
    (Wait funcs order).cancelled = true ∧ (g.Wait order).2.2 = true ∧
    r.2.cancelled = true :=
  ⟨rfl, rfl, DWait_cancelled d r hd⟩

/-- C7: both fixed-group constructors panic exactly when handed an empty
task list, and return a group handle for every non-empty list. -/
theorem new_panics_iff_empty (funcs : List (V × Option E)) :
    (New funcs).isNone = funcs.isEmpty ∧
    (PGroup.New funcs : Option (PGroup V E)).isNone = funcs.isEmpty := by
  constructor
  · unfold New
    by_cases h : funcs.isEmpty <;> simp [h]
  · unfold PGroup.New
    by_cases h : funcs.isEmpty <;> simp [h]

/-- C8: `Wait` on a dynamic group with zero submissions returns immediately
— no blocking (`none`) — with an empty values slice and a nil error. -/
theorem dynamic_wait_no_submissions :
    (NewDynamic : DynamicGroup V E).Wait =
      some ((([] : List V), (none : Option E)), ⟨true, false, none, 0, [], []⟩) :=
  rfl

/-- C9 counterexample: on the same single-task input, run in the same
completion order, the `src/grouper.go` fixed group returns the values slice
with the zero value at the erroring index while the `part_000` fixed group
returns the task's value there, so the two implementations do not return the
same values slice. -/
theorem fixed_impls_differ_cex :
    (Wait [((5 : Nat), some "boom")] [0]).values = [0] ∧
    ((⟨false, none, [((5 : Nat), some "boom")]⟩ : PGroup Nat String).Wait
      [0]).1.1 = [5] ∧ ([(0 : Nat)] ≠ [(5 : Nat)]) := by
  refine ⟨rfl, rfl, by decide⟩

/-- C9 amended: for every task list, outcome assignment and completion
order, the two fixed-group implementations return the same error and values
slices of the same length that agree at every index whose task did not
error; they may differ only at erroring indices. -/
theorem fixed_impls_agree_amended [Inhabited V] (funcs : List (V × Option E))
    (order : List Nat) (hperm : order.Perm (List.range funcs.length)) :
    (Wait funcs order).err = ((⟨false, none, funcs⟩ : PGroup V E).Wait order).1.2 ∧
    (Wait funcs order).values.length =
      ((⟨false, none, funcs⟩ : PGroup V E).Wait order).1.1.length ∧
    ∀ (i : Nat) (v : V), funcs[i]? = some (v, none) →
      ((Wait funcs order).values[i]? = some v ∧
        ((⟨false, none, funcs⟩ : PGroup V E).Wait order).1.1[i]? = some v) := by
  refine ⟨(Wait_err funcs order).trans (PWait_err funcs order).symm,
    (Wait_values_length funcs order).trans (PWait_values_length funcs order).symm,
    ?_⟩
  intro i v hi
  have hiv : i < funcs.length := (List.getElem?_eq_some.mp hi).1
  have hmem : i ∈ order := hperm.mem_iff.mpr (List.mem_range.mpr hiv)
  constructor
  · show (order.foldl (runTask funcs)
      ⟨List.replicate funcs.length default, false, none, false⟩).values[i]? = some v
    exact foldl_runTask_slot_succ funcs i v hi order _
      (by rw [List.length_replicate]) hmem
  · show (order.foldl (runTaskP funcs)
      ⟨List.replicate funcs.length default, false, none, false⟩).values[i]? = some v
    exact foldl_runTaskP_slot_write funcs i v none hi order _
      (by rw [List.length_replicate]) hmem

/-- C10: once a `part_000` `Wait` call has returned a non-nil error, every
subsequent `Wait` on the same group — after any chain of further `Wait`
calls — returns that same error: the guarded error slot is written at most
once over the group's lifetime. -/
theorem p000_wait_err_sticky [Inhabited V] (funcs : List (V × Option E))
    (order0 : List Nat) (e : E)
    (h : ((⟨false, none, funcs⟩ : PGroup V E).Wait order0).1.2 = some e) :
    ∀ (orders : List (List Nat)) (ordern : List Nat),
      ((((⟨false, none, funcs⟩ : PGroup V E).Wait order0).2.1.waitChain
        orders).Wait ordern).1.2 = some e := by
  intro orders ordern
  have hp : ((order0.foldl (runTaskP funcs)
      (⟨List.replicate funcs.length default, false, none, false⟩ : GState V E)).errSet,
    (order0.foldl (runTaskP funcs)
      (⟨List.replicate funcs.length default, false, none, false⟩ : GState V E)).err) =
      order0.foldl (onceStep funcs) ((false : Bool), (none : Option E)) :=
    foldl_runTaskP_errPair funcs order0 _
  have h2 : (order0.foldl (onceStep funcs) ((false : Bool), (none : Option E))).2 =
      some e := by
    rw [← hp]
    exact h
  have h3 := foldl_onceStep_clean_errSet funcs order0 e h2
  have hset1 : (((⟨false, none, funcs⟩ : PGroup V E).Wait order0).2.1).errSet = true := by
    have ha : (order0.foldl (runTaskP funcs)
        (⟨List.replicate funcs.length default, false, none, false⟩ : GState V E)).errSet =
        (order0.foldl (onceStep funcs) ((false : Bool), (none : Option E))).1 :=
      congrArg Prod.fst hp
    exact ha.trans h3
  rw [waitChain_frozen orders _ hset1,
    (PWait_frozen (((⟨false, none, funcs⟩ : PGroup V E).Wait order0).2.1) ordern hset1).2]
  exact h

/-! ## Witnesses -/

/-- Witness for C1 at a concrete two-task run whose second task fails. -/
theorem wait_err_is_failing_task_err_witness :
    (Wait [((1 : Nat), (none : Option String)), (2, some "boom")] [0, 1]).err ≠
      none := by
  intro hn
  obtain ⟨e, _, h2, _⟩ := wait_err_is_failing_task_err
    [((1 : Nat), (none : Option String)), (2, some "boom")] [0, 1]
    (by decide) (by decide)
  rw [h2] at hn
  exact Option.noConfusion hn

/-- Witness for C2 at a concrete two-task all-success run. -/
theorem wait_all_ok_values_witness :
    (Wait [((1 : Nat), (none : Option String)), (2, none)] [1, 0]).values[0]? =
      some 1 ∧
    ((⟨false, none, [((1 : Nat), (none : Option String)), (2, none)]⟩ :
      PGroup Nat String).Wait [1, 0]).1.1[0]? = some 1 :=
  (wait_all_ok_values [((1 : Nat), (none : Option String)), (2, none)] [1, 0]
    (by decide) (by decide) (by decide)).2.2.2.2 0 1 none (by rfl)

/-- Witness for C3 at a concrete two-submission run with one failing task. -/
theorem dynamic_wait_k_elements_witness :
    (((NewDynamic.goAll [((1 : Nat), some "e"), (2, (none : Option String))]).runAll
      [1, 0] : DynamicGroup Nat String).Wait).map (fun r => r.1.1.length) =
      some 2 := by
  obtain ⟨r, hW, hlen, _⟩ := dynamic_wait_k_elements
    [((1 : Nat), some "e"), (2, (none : Option String))] [1, 0] (by decide)
  rw [hW]
  simp [hlen]

/-- Witness for the amended C4 at a concrete erroring task. -/
theorem error_slot_amended_witness :
    (Wait [((5 : Nat), some "boom")] [0]).values[0]? = some (default : Nat) ∧
    ((⟨false, none, [((5 : Nat), some "boom")]⟩ : PGroup Nat String).Wait
      [0]).1.1[0]? = some 5 :=
  error_slot_amended [((5 : Nat), some "boom")] [0] 0 5 "boom" (by decide) rfl

/-- Witness for the amended C5 at a concrete two-task run. -/
theorem dynamic_deposit_is_task_value_amended_witness :
    ((NewDynamic.goAll [((7 : Nat), some "boom"), (8, (none : Option String))]).runAll
      [0, 1] : DynamicGroup Nat String).valueChan = [7, 8] :=
  ((dynamic_deposit_is_task_value_amended
    [((7 : Nat), some "boom"), (8, (none : Option String))] [0, 1]
    (by decide)).1).trans rfl

/-- Witness for C6 at concrete runs of all three groups. -/
theorem ctx_cancelled_after_wait_witness :
    (Wait [((1 : Nat), (none : Option String))] [0]).cancelled = true ∧
    ((⟨false, none, [((1 : Nat), (none : Option String))]⟩ :
      PGroup Nat String).Wait [0]).2.2 = true ∧
    ((⟨true, false, none, 0, [], []⟩ : DynamicGroup Nat String)).cancelled = true :=
  ctx_cancelled_after_wait [((1 : Nat), (none : Option String))] [0]
    ⟨false, none, [((1 : Nat), (none : Option String))]⟩ NewDynamic
    (([], none), ⟨true, false, none, 0, [], []⟩) rfl

/-- Witness for the amended C9 at a concrete one-task succeeding run. -/
theorem fixed_impls_agree_amended_witness :
    (Wait [((1 : Nat), (none : Option String))] [0]).values[0]? = some 1 ∧
    ((⟨false, none, [((1 : Nat), (none : Option String))]⟩ :
      PGroup Nat String).Wait [0]).1.1[0]? = some 1 :=
  (fixed_impls_agree_amended [((1 : Nat), (none : Option String))] [0]
    (by decide)).2.2 0 1 rfl

/-- Witness for C10 at a concrete failing run followed by two more `Wait`
calls and a final one. -/
theorem p000_wait_err_sticky_witness :
    ((((⟨false, none, [((1 : Nat), some "boom")]⟩ : PGroup Nat String).Wait
      [0]).2.1.waitChain [[0], []]).Wait [0]).1.2 = some "boom" :=
  p000_wait_err_sticky [((1 : Nat), some "boom")] [0] "boom" rfl [[0], []] [0]

end Grouper
